import Mathlib

set_option maxHeartbeats 1000000

/-!
Verification model of the bevy_observers crate (src/lib.rs): the transient
`Observers` marker component, its `on_insert` lifecycle hook, the deferred
command queue it appends to, the flush that applies those commands, and the
expansion of the construction helper that builds the marker from a list of
handler expressions.
-/

namespace BundledObservers

/-! Entity identifiers of the host ECS are modelled as natural numbers. -/

/-- Model of bevy_ecs Observer: an event-handler value. The handler body and its
event filter are abstracted as an identifier; the list records which entities
the observer watches. -/
structure Observer where
  handler : Nat
  watched : List Nat
deriving DecidableEq

/-- Rust Observer::new(handler): an unbound observer definition, watching no entity. -/
def Observer.new (h : Nat) : Observer := ⟨h, []⟩

/-- Rust Observer::with_entity(self, entity): bind the observer to watch the entity. -/
def Observer.with_entity (o : Observer) (e : Nat) : Observer :=
  ⟨o.handler, o.watched ++ [e]⟩

/-- Source line 51: pub struct Observers(pub Vec<Observer>); the transient marker
component holding the ordered sequence of unbound observer definitions. -/
structure Observers where
  observers : List Observer
deriving DecidableEq

/-- The components an entity of the model world may carry: the Observers marker
when present, an Observer component (carried by spawned observer entities), and
an opaque bag standing for all other components, which the crate never touches. -/
structure EntityState where
  marker : Option Observers
  observerComp : Option Observer
  other : List Nat
deriving DecidableEq

/-- Association-list lookup of the component state of an entity. -/
def lookupE : List (Nat × EntityState) → Nat → Option EntityState
  | [], _ => none
  | p :: l, e => if p.1 = e then some p.2 else lookupE l e

/-- In-place update of the state of one entity (write-back of a mutable borrow):
entries for other entities are untouched and no entry is created or destroyed. -/
def setE : List (Nat × EntityState) → Nat → (EntityState → EntityState) →
    List (Nat × EntityState)
  | [], _, _ => []
  | p :: l, e, f => (if p.1 = e then (p.1, f p.2) else p) :: setE l e f

/-- The model world: entity storage plus the allocator cursor for fresh ids. -/
structure World where
  next : Nat
  comps : List (Nat × EntityState)
deriving DecidableEq

/-- Component state of an entity, none when the entity does not exist. -/
def World.get (w : World) (e : Nat) : Option EntityState :=
  lookupE w.comps e

/-- Mutate the component state of one entity in place. -/
def World.updateEntity (w : World) (e : Nat) (f : EntityState → EntityState) : World :=
  { w with comps := setE w.comps e f }

/-- The deferred commands the hook enqueues: Commands::spawn_batch of bound
observers, and EntityCommands::remove of the Observers component. -/
inductive Command
  | spawn_batch (batch : List Observer)
  | removeObservers (e : Nat)
deriving DecidableEq

/-- Source line 54, world.get_mut::<Observers>(entity): some exactly when the
entity exists and carries the Observers component. -/
def World.get_mut_Observers (w : World) (e : Nat) : Option Observers :=
  (w.get e).bind (fun st => st.marker)

/-- Translation of fn on_insert(mut world: DeferredWorld, context: HookContext),
source lines 53-63. The context is represented by the triggering entity id it
carries. A none result models the unwrap panic on line 54. core::mem::take moves
the observer list out of the component, leaving it holding an empty list; each
taken definition is bound with with_entity in order; the spawn batch and then
the marker removal are appended to the deferred command queue. The entity
storage itself is not structurally changed here. -/
def on_insert (w : World) (queue : List Command) (entity : Nat) :
    Option (World × List Command) :=
  match w.get_mut_Observers entity with
  | none => none
  | some component =>
    let taken := component.observers
    let w1 := w.updateEntity entity (fun st => { st with marker := some ⟨[]⟩ })
    let observers := taken.map (fun o => o.with_entity entity)
    some (w1, queue ++ [Command.spawn_batch observers, Command.removeObservers entity])

/-- The component state of a spawned bound-observer entity: it holds exactly the
one Observer value it was spawned with. -/
def spawnedEntity (o : Observer) : EntityState :=
  { marker := none, observerComp := some o, other := [] }

/-- Spawn one new entity holding the bound observer, at the next fresh id. -/
def spawnOne (w : World) (o : Observer) : World :=
  { next := w.next + 1, comps := w.comps ++ [(w.next, spawnedEntity o)] }

/-- Apply one deferred command to the world at flush time. -/
def applyCommand (w : World) : Command → World
  | Command.spawn_batch batch => batch.foldl spawnOne w
  | Command.removeObservers e => w.updateEntity e (fun st => { st with marker := none })

/-- Flush the deferred command queue in FIFO order. -/
def flush (w : World) (queue : List Command) : World :=
  queue.foldl applyCommand w

/-- Host insertion of an Observers marker holding the given definitions onto an
existing entity: the component is written and the registered on_insert hook
fires synchronously, starting from an empty command queue. -/
def insertObservers (w : World) (e : Nat) (defs : List Observer) :
    Option (World × List Command) :=
  if (w.get e).isSome then
    on_insert (w.updateEntity e (fun st => { st with marker := some ⟨defs⟩ })) [] e
  else none

/-- Insertion followed by the host flushing the deferred command queue. -/
def insertAndFlush (w : World) (e : Nat) (defs : List Observer) : Option World :=
  (insertObservers w e defs).map (fun r => flush r.1 r.2)

/-- Well-formedness of the model world: every stored entity id was allocated
below the allocator cursor. -/
def WF (w : World) : Prop :=
  ∀ p ∈ w.comps, p.1 < w.next

/-- Expansion of the repetition inside the construction helper, source lines
22-27: each argument expression is wrapped in Observer::new and the results are
collected left to right into a vector literal. Handler expressions are
abstracted as identifiers. -/
def observersExpand : List Nat → List Observer
  | [] => []
  | h :: t => Observer.new h :: observersExpand t

/-- An invocation of the construction helper: its parsed argument expressions
plus whether a trailing comma was written. The expansion does not capture the
optional trailing comma and wraps the expanded vector in the Observers
constructor. -/
def observersBang (args : List Nat) (trailingComma : Bool) : Observers :=
  ⟨observersExpand args⟩

/-- The entries a spawn batch appends: consecutive fresh ids starting at the
cursor, each carrying one spawned observer entity state. -/
def spawnList : Nat → List Observer → List (Nat × EntityState)
  | _, [] => []
  | n, o :: t => (n, spawnedEntity o) :: spawnList (n + 1) t

/-! Concrete example values used by the witness theorems. -/

/-- An unbound observer definition with handler id 5. -/
def obsEx : Observer := ⟨5, []⟩

/-- Entity 0 carrying the marker with one definition, no Observer component, and
one opaque other component. -/
def stEx : EntityState := ⟨some ⟨[obsEx]⟩, none, [7]⟩

/-- A world holding only entity 0 in the state stEx. -/
def wEx : World := ⟨1, [(0, stEx)]⟩

/-- The world wEx after the hook ran on entity 0: marker emptied in place. -/
def wEmptied : World := ⟨1, [(0, ⟨some ⟨[]⟩, none, [7]⟩)]⟩

/-- The two commands the hook enqueues on wEx. -/
def cmdsEx : List Command := [Command.spawn_batch [⟨5, [0]⟩], Command.removeObservers 0]

/-- A world holding only entity 0, with no marker yet. -/
def wBase : World := ⟨1, [(0, ⟨none, none, [7]⟩)]⟩

/-! Helper lemmas about the storage primitives. -/

theorem lookupE_setE_same (l : List (Nat × EntityState)) (e : Nat)
    (f : EntityState → EntityState) :
    lookupE (setE l e f) e = (lookupE l e).map f := by
  induction l with
  | nil => rfl
  | cons p l ih =>
    by_cases h : p.1 = e
    · simp [setE, lookupE, h]
    · simp [setE, lookupE, h, ih]

theorem lookupE_setE_ne (l : List (Nat × EntityState)) (e k : Nat)
    (f : EntityState → EntityState) (hk : k ≠ e) :
    lookupE (setE l e f) k = lookupE l k := by
  have hek : ¬ (e = k) := fun hh => hk hh.symm
  induction l with
  | nil => rfl
  | cons p l ih =>
    by_cases h : p.1 = e
    · simp [setE, lookupE, h, hek, ih]
    · simp only [setE, if_neg h, lookupE, ih]

theorem setE_length (l : List (Nat × EntityState)) (e : Nat)
    (f : EntityState → EntityState) :
    (setE l e f).length = l.length := by
  induction l with
  | nil => rfl
  | cons p l ih => simp [setE, ih]

theorem setE_keys_lt (e : Nat) (f : EntityState → EntityState) (n : Nat) :
    ∀ l : List (Nat × EntityState), (∀ p ∈ l, p.1 < n) → ∀ p ∈ setE l e f, p.1 < n := by
  intro l
  induction l with
  | nil => intro _ p hp; cases hp
  | cons q l ih =>
    intro h p hp
    simp only [setE] at hp
    rcases List.mem_cons.mp hp with h1 | h1
    · by_cases he : q.1 = e
      · rw [if_pos he] at h1
        subst h1
        exact h q (by simp)
      · rw [if_neg he] at h1
        rw [h1]
        exact h q (by simp)
    · exact ih (fun r hr => h r (List.mem_cons_of_mem q hr)) p h1

theorem setE_setE (l : List (Nat × EntityState)) (e : Nat)
    (f g : EntityState → EntityState) :
    setE (setE l e f) e g = setE l e (fun st => g (f st)) := by
  induction l with
  | nil => rfl
  | cons p l ih =>
    by_cases h : p.1 = e
    · simp [setE, h, ih]
    · simp [setE, h, ih]

theorem lookupE_append_of_no_key (l1 l2 : List (Nat × EntityState)) (k : Nat)
    (h : ∀ p ∈ l1, p.1 ≠ k) :
    lookupE (l1 ++ l2) k = lookupE l2 k := by
  induction l1 with
  | nil => rfl
  | cons p l ih =>
    have hp : p.1 ≠ k := h p (by simp)
    simp [lookupE, hp]
    exact ih (fun q hq => h q (List.mem_cons_of_mem p hq))

theorem lookupE_append_left (l1 l2 : List (Nat × EntityState)) (k : Nat)
    (v : EntityState) (h : lookupE l1 k = some v) :
    lookupE (l1 ++ l2) k = some v := by
  induction l1 with
  | nil => cases h
  | cons p l ih =>
    by_cases hp : p.1 = k
    · simp [lookupE, hp] at h ⊢
      exact h
    · simp [lookupE, hp] at h ⊢
      exact ih h

theorem lookupE_mem (l : List (Nat × EntityState)) (k : Nat) (v : EntityState)
    (h : lookupE l k = some v) : (k, v) ∈ l := by
  induction l with
  | nil => cases h
  | cons p l ih =>
    by_cases hp : p.1 = k
    · simp [lookupE, hp] at h
      subst hp
      subst h
      simp
    · simp [lookupE, hp] at h
      exact List.mem_cons_of_mem p (ih h)

theorem spawnList_length (n : Nat) (obs : List Observer) :
    (spawnList n obs).length = obs.length := by
  induction obs generalizing n with
  | nil => rfl
  | cons o t ih => simp [spawnList, ih]

theorem spawnList_lookup (obs : List Observer) (n : Nat) (i : Nat)
    (h : i < obs.length) :
    lookupE (spawnList n obs) (n + i) = some (spawnedEntity (obs.get ⟨i, h⟩)) := by
  induction obs generalizing n i with
  | nil => cases h
  | cons o t ih =>
    cases i with
    | zero => simp [spawnList, lookupE]
    | succ j =>
      have hne : ¬ (n = n + (j + 1)) := by omega
      have hj : j < t.length := by
        have hh := h
        simp only [List.length_cons] at hh
        omega
      have hrec := ih (n + 1) j hj
      have harith : n + 1 + j = n + (j + 1) := by omega
      rw [harith] at hrec
      simp [spawnList, lookupE, hne, hrec]

theorem foldl_spawnOne (obs : List Observer) (w : World) :
    obs.foldl spawnOne w =
      ⟨w.next + obs.length, w.comps ++ spawnList w.next obs⟩ := by
  induction obs generalizing w with
  | nil => simp [spawnList]
  | cons o t ih =>
    have step : spawnOne w o =
        ⟨w.next + 1, w.comps ++ [(w.next, spawnedEntity o)]⟩ := rfl
    calc (o :: t).foldl spawnOne w = t.foldl spawnOne (spawnOne w o) := rfl
      _ = ⟨(spawnOne w o).next + t.length,
            (spawnOne w o).comps ++ spawnList (spawnOne w o).next t⟩ := ih _
      _ = ⟨w.next + (t.length + 1), w.comps ++ spawnList w.next (o :: t)⟩ := by
          simp only [spawnOne, spawnList]
          congr 1
          · omega
          · simp

/-! Normal forms of the hook, the insertion path, and the flush. -/

theorem on_insert_eq (w : World) (queue : List Command) (e : Nat) (defs : List Observer)
    (h : w.get_mut_Observers e = some ⟨defs⟩) :
    on_insert w queue e =
      some (w.updateEntity e (fun st => { st with marker := some ⟨[]⟩ }),
            queue ++ [Command.spawn_batch (defs.map (fun o => o.with_entity e)),
                      Command.removeObservers e]) := by
  unfold on_insert
  rw [h]

theorem get_mut_after_set (w : World) (e : Nat) (st : EntityState) (defs : List Observer)
    (hst : lookupE w.comps e = some st) :
    (w.updateEntity e (fun s => { s with marker := some ⟨defs⟩ })).get_mut_Observers e =
      some ⟨defs⟩ := by
  unfold World.get_mut_Observers World.get World.updateEntity
  simp [lookupE_setE_same, hst]

theorem insertObservers_eq (w : World) (e : Nat) (defs : List Observer) (st : EntityState)
    (hst : lookupE w.comps e = some st) :
    insertObservers w e defs =
      some ({ w with comps := setE w.comps e (fun s => { s with marker := some ⟨[]⟩ }) },
            [Command.spawn_batch (defs.map (fun o => o.with_entity e)),
             Command.removeObservers e]) := by
  unfold insertObservers
  have hsome : (w.get e).isSome := by unfold World.get; rw [hst]; rfl
  rw [if_pos hsome]
  rw [on_insert_eq _ _ _ defs (get_mut_after_set w e st defs hst)]
  unfold World.updateEntity
  simp only [setE_setE]
  rfl

theorem flush_spawn_remove (w : World) (b : List Observer) (e : Nat) :
    flush w [Command.spawn_batch b, Command.removeObservers e] =
      { next := w.next + b.length,
        comps := setE (w.comps ++ spawnList w.next b) e
            (fun st => { st with marker := none }) } := by
  unfold flush
  simp only [List.foldl_cons, List.foldl_nil]
  rw [show applyCommand w (Command.spawn_batch b) = b.foldl spawnOne w from rfl]
  rw [foldl_spawnOne]
  rfl

theorem insertAndFlush_eq (w : World) (e : Nat) (defs : List Observer) (st : EntityState)
    (hst : lookupE w.comps e = some st) :
    insertAndFlush w e defs =
      some { next := w.next + defs.length,
             comps := setE (setE w.comps e (fun s => { s with marker := some ⟨[]⟩ })
                 ++ spawnList w.next (defs.map (fun o => o.with_entity e)))
               e (fun s => { s with marker := none }) } := by
  unfold insertAndFlush
  rw [insertObservers_eq w e defs st hst]
  rw [Option.map_some']
  show some (flush
      { w with comps := setE w.comps e (fun s => { s with marker := some ⟨[]⟩ }) }
      [Command.spawn_batch (defs.map (fun o => o.with_entity e)),
       Command.removeObservers e]) = _
  rw [flush_spawn_remove]
  simp [List.length_map]

/-! Claim theorems. -/

/-- C5: the on_insert hook fails fatally (the unwrap on source line 54, modelled
as the none result) if and only if the Observers component is absent from the
triggering entity at hook-invocation time; equivalently, whenever the marker is
present the hook succeeds, so under the host guarantee of presence the failure
branch is unreachable. -/
theorem on_insert_fails_iff_marker_absent (w : World) (queue : List Command) (e : Nat) :
    on_insert w queue e = none ↔ w.get_mut_Observers e = none := by
  unfold on_insert
  cases h : w.get_mut_Observers e <;> simp

/-- C9: the on_insert hook is deterministic: two runs from the same world state,
queue and hook context produce the same resulting world (component state) and
the same enqueued commands. -/
theorem on_insert_deterministic (w : World) (queue : List Command) (e : Nat)
    (r1 r2 : World × List Command)
    (h1 : on_insert w queue e = some r1) (h2 : on_insert w queue e = some r2) :
    r1 = r2 := by
  rw [h1] at h2
  exact Option.some.inj h2

/-- Witness for C9 at a concrete world: both runs yield the emptied world and
the two enqueued commands. -/
theorem on_insert_deterministic_witness :
    on_insert wEx [] 0 = some (wEmptied, cmdsEx) ∧
    on_insert wEx [] 0 = some (wEmptied, cmdsEx) ∧
    (wEmptied, cmdsEx) = (wEmptied, cmdsEx) :=
  ⟨by decide, by decide,
    on_insert_deterministic wEx [] 0 (wEmptied, cmdsEx) (wEmptied, cmdsEx)
      (by decide) (by decide)⟩

/-- C2: the hook preserves declaration order when binding and spawning: the
enqueued spawn batch has one entry per definition, and its i-th entry is the
i-th definition of the taken list bound to the triggering entity. -/
theorem on_insert_preserves_order (w : World) (queue : List Command) (e : Nat)
    (defs : List Observer) (h : w.get_mut_Observers e = some ⟨defs⟩) :
    ∃ w2 batch,
      on_insert w queue e =
        some (w2, queue ++ [Command.spawn_batch batch, Command.removeObservers e]) ∧
      batch.length = defs.length ∧
      ∀ i (hi : i < defs.length) (hb : i < batch.length),
        batch.get ⟨i, hb⟩ = (defs.get ⟨i, hi⟩).with_entity e := by
  refine ⟨_, defs.map (fun o => o.with_entity e), on_insert_eq w queue e defs h,
    by simp, ?_⟩
  intro i hi hb
  simp [List.get_eq_getElem, List.getElem_map]

/-- Witness for C2 at a concrete world with one definition. -/
theorem on_insert_preserves_order_witness :
    wEx.get_mut_Observers 0 = some ⟨[obsEx]⟩ ∧
    (∃ w2 batch,
      on_insert wEx [] 0 =
        some (w2, [] ++ [Command.spawn_batch batch, Command.removeObservers 0]) ∧
      batch.length = [obsEx].length ∧
      ∀ i (hi : i < [obsEx].length) (hb : i < batch.length),
        batch.get ⟨i, hb⟩ = ([obsEx].get ⟨i, hi⟩).with_entity 0) :=
  ⟨by decide, on_insert_preserves_order wEx [] 0 [obsEx] (by decide)⟩

/-- Expansion of the argument repetition agrees with mapping Observer::new over
the argument list. -/
theorem observersExpand_eq_map (args : List Nat) :
    observersExpand args = args.map Observer.new := by
  induction args with
  | nil => rfl
  | cons a t ih => simp [observersExpand, ih]

/-- C7: for every argument list (with or without trailing comma), the
construction helper yields exactly the plain constructor expression: the
Observers value holding Observer::new of each argument, in the given order,
with no other state. -/
theorem observersBang_eq_ctor (args : List Nat) (tc : Bool) :
    observersBang args tc = ⟨args.map Observer.new⟩ := by
  unfold observersBang
  rw [observersExpand_eq_map]

/-- C10: the construction helper accepts an empty argument list, yielding the
empty marker, and a trailing comma does not change the produced value. -/
theorem observersBang_empty_and_trailing :
    observersBang [] false = ⟨[]⟩ ∧
    ∀ args, observersBang args true = observersBang args false :=
  ⟨rfl, fun _ => rfl⟩

/-- Emptying the marker of one entity twice in a row equals doing it once. -/
theorem setE_empty_idem (l : List (Nat × EntityState)) (e : Nat) :
    setE (setE l e (fun st => { st with marker := some ⟨[]⟩ })) e
        (fun st => { st with marker := some ⟨[]⟩ }) =
      setE l e (fun st => { st with marker := some ⟨[]⟩ }) := by
  rw [setE_setE]

/-- C3: the hook empties the marker in place before processing: right after a
successful run on an entity, that entity still carries the Observers component
and it holds the empty sequence; re-invoking the hook on that state is a safe
no-op that processes zero definitions, leaving the world unchanged and
enqueueing an empty spawn batch. -/
theorem on_insert_empties_and_reentry (w : World) (queue : List Command) (e : Nat)
    (w2 : World) (q2 : List Command) (h : on_insert w queue e = some (w2, q2)) :
    w2.get_mut_Observers e = some ⟨[]⟩ ∧
    ∀ queue2, on_insert w2 queue2 e =
      some (w2, queue2 ++ [Command.spawn_batch [], Command.removeObservers e]) := by
  cases hm : w.get_mut_Observers e with
  | none =>
    unfold on_insert at h
    rw [hm] at h
    cases h
  | some c =>
    rw [on_insert_eq w queue e c.observers hm] at h
    have hp := Option.some.inj h
    have hw2 : w.updateEntity e (fun st => { st with marker := some ⟨[]⟩ }) = w2 :=
      congrArg Prod.fst hp
    obtain ⟨st, hst, hmark⟩ := Option.bind_eq_some.mp hm
    subst hw2
    have h0 := get_mut_after_set w e st [] hst
    refine ⟨h0, ?_⟩
    intro queue2
    rw [on_insert_eq _ queue2 e [] h0]
    have hWW : (w.updateEntity e (fun st => { st with marker := some ⟨[]⟩ })).updateEntity
        e (fun st => { st with marker := some ⟨[]⟩ }) =
        w.updateEntity e (fun st => { st with marker := some ⟨[]⟩ }) := by
      simp only [World.updateEntity]
      rw [setE_empty_idem]
    rw [hWW]
    rfl

/-- Witness for C3 at a concrete world with one definition. -/
theorem on_insert_empties_and_reentry_witness :
    on_insert wEx [] 0 = some (wEmptied, cmdsEx) ∧
    (wEmptied.get_mut_Observers 0 = some ⟨[]⟩ ∧
     ∀ queue2, on_insert wEmptied queue2 0 =
       some (wEmptied, queue2 ++ [Command.spawn_batch [], Command.removeObservers 0])) :=
  ⟨by decide, on_insert_empties_and_reentry wEx [] 0 wEmptied cmdsEx (by decide)⟩

/-- C4: the hook performs no immediate structural world mutation: it appends
exactly two deferred commands to the queue, the spawn batch of all bound
observers followed by the marker removal, and before the flush the entity set
is unchanged, every other entity is untouched, and the triggering entity keeps
all its components, the marker still structurally present (though emptied in
place, as C3 states). -/
theorem on_insert_defers (w : World) (queue : List Command) (e : Nat)
    (w2 : World) (q2 : List Command) (h : on_insert w queue e = some (w2, q2)) :
    (∃ defs, w.get_mut_Observers e = some ⟨defs⟩ ∧
      q2 = queue ++ [Command.spawn_batch (defs.map (fun o => o.with_entity e)),
                     Command.removeObservers e]) ∧
    w2.next = w.next ∧
    w2.comps.length = w.comps.length ∧
    (∀ k, k ≠ e → w2.get k = w.get k) ∧
    (∀ st, w.get e = some st → w2.get e = some { st with marker := some ⟨[]⟩ }) ∧
    (w2.get_mut_Observers e).isSome = true := by
  cases hm : w.get_mut_Observers e with
  | none =>
    unfold on_insert at h
    rw [hm] at h
    cases h
  | some c =>
    rw [on_insert_eq w queue e c.observers hm] at h
    have hp := Option.some.inj h
    have hw2 : w.updateEntity e (fun st => { st with marker := some ⟨[]⟩ }) = w2 :=
      congrArg Prod.fst hp
    have hq2 : queue ++ [Command.spawn_batch (c.observers.map (fun o => o.with_entity e)),
        Command.removeObservers e] = q2 := congrArg Prod.snd hp
    obtain ⟨st, hst, hmark⟩ := Option.bind_eq_some.mp hm
    subst hw2
    subst hq2
    refine ⟨⟨c.observers, rfl, rfl⟩, rfl, setE_length _ _ _, ?_, ?_, ?_⟩
    · intro k hk
      exact lookupE_setE_ne w.comps e k _ hk
    · intro st2 hst2
      show lookupE (setE w.comps e _) e = _
      rw [lookupE_setE_same, show lookupE w.comps e = some st2 from hst2]
      rfl
    · rw [get_mut_after_set w e st [] hst]
      rfl

/-- Witness for C4 at a concrete world with one definition. -/
theorem on_insert_defers_witness :
    on_insert wEx [] 0 = some (wEmptied, cmdsEx) ∧
    ((∃ defs, wEx.get_mut_Observers 0 = some ⟨defs⟩ ∧
      cmdsEx = [] ++ [Command.spawn_batch (defs.map (fun o => o.with_entity 0)),
                      Command.removeObservers 0]) ∧
     wEmptied.next = wEx.next ∧
     wEmptied.comps.length = wEx.comps.length ∧
     (∀ k, k ≠ 0 → wEmptied.get k = wEx.get k) ∧
     (∀ st, wEx.get 0 = some st → wEmptied.get 0 = some { st with marker := some ⟨[]⟩ }) ∧
     (wEmptied.get_mut_Observers 0).isSome = true) :=
  ⟨by decide, on_insert_defers wEx [] 0 wEmptied cmdsEx (by decide)⟩

/-- C8: the hook is local: a successful run leaves the allocator and every other
entity untouched, rewrites only the Observers component of the triggering
entity, and appends to the shared queue; moreover the appended commands depend
only on the Observers component of the triggering entity, so the hook reads no
other component of any entity. -/
theorem on_insert_touches_only_marker (w : World) (queue : List Command) (e : Nat)
    (w2 : World) (q2 : List Command) (h : on_insert w queue e = some (w2, q2)) :
    w2.next = w.next ∧
    (∀ k, k ≠ e → w2.get k = w.get k) ∧
    (∀ st, w.get e = some st → w2.get e = some { st with marker := some ⟨[]⟩ }) ∧
    ∃ newCmds, q2 = queue ++ newCmds ∧
      ∀ (w3 : World) (queue3 : List Command),
        w3.get_mut_Observers e = w.get_mut_Observers e →
        ∃ w4, on_insert w3 queue3 e = some (w4, queue3 ++ newCmds) := by
  cases hm : w.get_mut_Observers e with
  | none =>
    unfold on_insert at h
    rw [hm] at h
    cases h
  | some c =>
    rw [on_insert_eq w queue e c.observers hm] at h
    have hp := Option.some.inj h
    have hw2 : w.updateEntity e (fun st => { st with marker := some ⟨[]⟩ }) = w2 :=
      congrArg Prod.fst hp
    have hq2 : queue ++ [Command.spawn_batch (c.observers.map (fun o => o.with_entity e)),
        Command.removeObservers e] = q2 := congrArg Prod.snd hp
    subst hw2
    subst hq2
    refine ⟨rfl, ?_, ?_,
      [Command.spawn_batch (c.observers.map (fun o => o.with_entity e)),
       Command.removeObservers e], rfl, ?_⟩
    · intro k hk
      exact lookupE_setE_ne w.comps e k _ hk
    · intro st2 hst2
      show lookupE (setE w.comps e _) e = _
      rw [lookupE_setE_same, show lookupE w.comps e = some st2 from hst2]
      rfl
    · intro w3 queue3 hagree
      exact ⟨_, on_insert_eq w3 queue3 e c.observers (hagree.trans rfl)⟩

/-- Witness for C8 at a concrete world with one definition. -/
theorem on_insert_touches_only_marker_witness :
    on_insert wEx [] 0 = some (wEmptied, cmdsEx) ∧
    (wEmptied.next = wEx.next ∧
     (∀ k, k ≠ 0 → wEmptied.get k = wEx.get k) ∧
     (∀ st, wEx.get 0 = some st → wEmptied.get 0 = some { st with marker := some ⟨[]⟩ }) ∧
     ∃ newCmds, cmdsEx = [] ++ newCmds ∧
       ∀ (w3 : World) (queue3 : List Command),
         w3.get_mut_Observers 0 = wEx.get_mut_Observers 0 →
         ∃ w4, on_insert w3 queue3 0 = some (w4, queue3 ++ newCmds)) :=
  ⟨by decide, on_insert_touches_only_marker wEx [] 0 wEmptied cmdsEx (by decide)⟩

/-- After the flush, the triggering entity keeps all its components except the
marker, which is gone. -/
theorem lookupE_after_flush_self (w : World) (e : Nat) (st : EntityState)
    (b : List Observer) (hst : lookupE w.comps e = some st) :
    lookupE (setE (setE w.comps e (fun s => { s with marker := some ⟨[]⟩ })
        ++ spawnList w.next b) e (fun s => { s with marker := none })) e =
      some { st with marker := none } := by
  rw [lookupE_setE_same]
  rw [lookupE_append_left _ _ e ((fun s => { s with marker := some ⟨[]⟩ }) st)
    (by rw [lookupE_setE_same, hst]; rfl)]
  rfl

/-- C1: for every sequence of observer definitions, including the empty one,
inserting the marker on an existing entity and flushing the queue leaves the
entity without the Observers component (though still alive), allocates exactly
one new entity per definition, and the i-th new entity holds exactly the i-th
definition bound to the triggering entity. -/
theorem insertAndFlush_spawns_and_removes (w : World) (e : Nat) (defs : List Observer)
    (hwf : WF w) (he : (w.get e).isSome = true) :
    ∃ w2, insertAndFlush w e defs = some w2 ∧
      w2.get_mut_Observers e = none ∧
      (w2.get e).isSome = true ∧
      w2.next = w.next + defs.length ∧
      w2.comps.length = w.comps.length + defs.length ∧
      ∀ i (hi : i < defs.length),
        w2.get (w.next + i) = some (spawnedEntity ((defs.get ⟨i, hi⟩).with_entity e)) := by
  obtain ⟨st, hst⟩ := Option.isSome_iff_exists.mp he
  have hst2 : lookupE w.comps e = some st := hst
  have helt : e < w.next := hwf (e, st) (lookupE_mem _ _ _ hst2)
  have hFinE := lookupE_after_flush_self w e st (defs.map (fun o => o.with_entity e)) hst2
  refine ⟨_, insertAndFlush_eq w e defs st hst2, ?_, ?_, rfl, ?_, ?_⟩
  · show (lookupE (setE (setE w.comps e _ ++ spawnList w.next _) e _) e).bind
        (fun s => s.marker) = none
    rw [hFinE]
    rfl
  · show (lookupE (setE (setE w.comps e _ ++ spawnList w.next _) e _) e).isSome = true
    rw [hFinE]
    rfl
  · show (setE (setE w.comps e _ ++ spawnList w.next _) e _).length =
      w.comps.length + defs.length
    rw [setE_length, List.length_append, setE_length, spawnList_length, List.length_map]
  · intro i hi
    have hne : w.next + i ≠ e := by omega
    have hkeys : ∀ p ∈ setE w.comps e
        (fun s => { s with marker := some ⟨[]⟩ }), p.1 ≠ w.next + i := by
      intro p hp
      have := setE_keys_lt e (fun s => { s with marker := some ⟨[]⟩ }) w.next w.comps hwf p hp
      omega
    have hib : i < (defs.map (fun o => o.with_entity e)).length := by
      rw [List.length_map]
      exact hi
    show lookupE (setE (setE w.comps e _ ++ spawnList w.next _) e _) (w.next + i) = _
    rw [lookupE_setE_ne _ _ _ _ hne]
    rw [lookupE_append_of_no_key _ _ _ hkeys]
    rw [spawnList_lookup (defs.map (fun o => o.with_entity e)) w.next i hib]
    simp [List.get_eq_getElem, List.getElem_map]

/-- Witness for C1: one definition inserted on a marker-free entity. -/
theorem insertAndFlush_spawns_and_removes_witness :
    WF wBase ∧ (wBase.get 0).isSome = true ∧
    (∃ w2, insertAndFlush wBase 0 [obsEx] = some w2 ∧
      w2.get_mut_Observers 0 = none ∧
      (w2.get 0).isSome = true ∧
      w2.next = wBase.next + [obsEx].length ∧
      w2.comps.length = wBase.comps.length + [obsEx].length ∧
      ∀ i (hi : i < [obsEx].length),
        w2.get (wBase.next + i) =
          some (spawnedEntity (([obsEx].get ⟨i, hi⟩).with_entity 0))) :=
  ⟨by unfold WF; decide, by decide,
    insertAndFlush_spawns_and_removes wBase 0 [obsEx] (by unfold WF; decide) (by decide)⟩

/-- C6: an empty observer-definition sequence is not an error: insertion of an
empty marker enqueues an empty spawn batch together with the removal command,
and after the flush no new entity exists while the marker is gone from the
still-alive entity. -/
theorem insert_empty_is_ok (w : World) (e : Nat) (he : (w.get e).isSome = true) :
    (∃ w1, insertObservers w e [] =
      some (w1, [Command.spawn_batch [], Command.removeObservers e])) ∧
    ∃ w2, insertAndFlush w e [] = some w2 ∧
      w2.next = w.next ∧
      w2.comps.length = w.comps.length ∧
      w2.get_mut_Observers e = none ∧
      (w2.get e).isSome = true := by
  obtain ⟨st, hst⟩ := Option.isSome_iff_exists.mp he
  have hst2 : lookupE w.comps e = some st := hst
  have hFinE := lookupE_after_flush_self w e st
    (([] : List Observer).map (fun o => o.with_entity e)) hst2
  constructor
  · exact ⟨_, insertObservers_eq w e [] st hst2⟩
  · refine ⟨_, insertAndFlush_eq w e [] st hst2, rfl, ?_, ?_, ?_⟩
    · show (setE (setE w.comps e _ ++ spawnList w.next _) e _).length = w.comps.length
      rw [setE_length, List.length_append, setE_length, spawnList_length]
      rfl
    · show (lookupE (setE (setE w.comps e _ ++ spawnList w.next _) e _) e).bind
          (fun s => s.marker) = none
      rw [hFinE]
      rfl
    · show (lookupE (setE (setE w.comps e _ ++ spawnList w.next _) e _) e).isSome = true
      rw [hFinE]
      rfl

/-- Witness for C6: empty marker inserted on a marker-free entity. -/
theorem insert_empty_is_ok_witness :
    (wBase.get 0).isSome = true ∧
    ((∃ w1, insertObservers wBase 0 [] =
      some (w1, [Command.spawn_batch [], Command.removeObservers 0])) ∧
    ∃ w2, insertAndFlush wBase 0 [] = some w2 ∧
      w2.next = wBase.next ∧
      w2.comps.length = wBase.comps.length ∧
      w2.get_mut_Observers 0 = none ∧
      (w2.get 0).isSome = true) :=
  ⟨by decide, insert_empty_is_ok wBase 0 (by decide)⟩

end BundledObservers
